import Mathlib

/-!
Shallow embedding of `src/convert.py`: a converter from a plain-text quiz
format to Moodle GIFT markup.  Lines are modelled as `List Char`; the three
regular expressions of the source are translated into deterministic matching
functions (the patterns involved have no genuine backtracking: every
`\s*` / `\d+` run is followed by a character that cannot extend the run, so
greedy scanning is exact).  Whitespace is modelled on the ASCII range.
-/

namespace Convert

/-- ASCII whitespace, modelling Python's `\s` and `str.strip` (the inputs of
interest are ASCII plus the checkmark glyph). -/
def isSpace (c : Char) : Bool :=
  c = ' ' || c = '\t' || c = '\n' || c = '\r' || c = '\x0b' || c = '\x0c'

/-- Characters of a string literal, used to write concrete lines. -/
def chars (s : String) : List Char := s.data

/-- Python `str.strip` from the left. -/
def lstrip (l : List Char) : List Char := l.dropWhile isSpace

/-- Python `str.rstrip` (no arguments: strips trailing whitespace). -/
def rstrip (l : List Char) : List Char := (l.reverse.dropWhile isSpace).reverse

/-- Python `str.strip`. -/
def strip (l : List Char) : List Char := rstrip (lstrip l)

/-- Python `str.upper` on the ASCII range. -/
def upperChars (l : List Char) : List Char := l.map Char.toUpper

/-- The character class `[A-Da-d]` of `OPTION_RE` and `CORRECT_RE`. -/
def isOptLetter (c : Char) : Bool :=
  ('A' ≤ c && c ≤ 'D') || ('a' ≤ c && c ≤ 'd')

/-- `true` iff the list contains no newline (Python's `.` never matches a
newline). -/
def noNl (l : List Char) : Bool := l.all (fun c => c != '\n')

/-- Case-insensitive literal matching: strips `pat` from the front of `s`
(comparing lowercased characters) and returns the remainder. -/
def ciStrip? : List Char → List Char → Option (List Char)
  | [], s => some s
  | _ :: _, [] => none
  | p :: ps, c :: cs => if p.toLower = c.toLower then ciStrip? ps cs else none

/-- The suffix `\s*(.*)$` shared by both alternatives of `QUESTION_START_RE`:
group 4 is the remainder after the marker with leading whitespace dropped;
`.` cannot cross a newline, and `$` also matches just before one final
newline. -/
def tailGroup (pnum : List Char) (rem : List Char) : Option (List Char × List Char) :=
  let r := rem.dropWhile isSpace
  if noNl r then some (pnum, r)
  else if r.getLast? = some '\n' && noNl r.dropLast then some (pnum, r.dropLast)
  else none

/-- First alternative of `QUESTION_START_RE` (src line 26):
`::\s*(P\d+)\s*::` followed by `\s*(.*)$`, case-insensitive. -/
def altColon (s : List Char) : Option (List Char × List Char) :=
  match s with
  | c1 :: c2 :: t =>
    if c1 = ':' ∧ c2 = ':' then
      match t.dropWhile isSpace with
      | c :: t2 =>
        if c.toLower = 'p' then
          let ds := t2.takeWhile Char.isDigit
          if ds = [] then none
          else
            match (t2.dropWhile Char.isDigit).dropWhile isSpace with
            | c3 :: c4 :: t5 => if c3 = ':' ∧ c4 = ':' then tailGroup (c :: ds) t5 else none
            | _ => none
        else none
      | [] => none
    else none
  | _ => none

/-- Second alternative of `QUESTION_START_RE` (src line 26): `P(\d+)\.`
followed by `\s*(.*)$`, case-insensitive; group 3 holds the digits, and the
parser rebuilds `"P" ++ digits` from it. -/
def altPDot (s : List Char) : Option (List Char × List Char) :=
  match s with
  | c :: t =>
    if c.toLower = 'p' then
      let ds := t.takeWhile Char.isDigit
      if ds = [] then none
      else
        match t.dropWhile Char.isDigit with
        | c2 :: t5 => if c2 = '.' then tailGroup ('P' :: ds) t5 else none
        | [] => none
    else none
  | [] => none

/-- `QUESTION_START_RE.match` (src line 26).  On success it returns the
question label (`group(2)`, or `"P" ++ group(3)` as rebuilt at src line 47)
together with the trailing text `group(4)`. -/
def matchQuestionStart (s : List Char) : Option (List Char × List Char) :=
  match altColon s with
  | some r => some r
  | none => altPDot s

/-- `OPTION_RE.match` (src line 27: `^([A-Da-d])\)\s*(.+?)\s*$`) combined
with the extraction at src lines 80-81: the letter is uppercased and the
captured text stripped.  The remainder after `<letter>)` matches
`\s*(.+?)\s*$` iff its whitespace-stripped core is nonempty and
newline-free, or it is a nonempty run of whitespace containing some
non-newline character (in which case the stripped captured text is empty). -/
def matchOption (s : List Char) : Option (Char × List Char) :=
  match s with
  | c :: c2 :: t =>
    if c2 = ')' ∧ isOptLetter c then
      let core := strip t
      if core ≠ [] then
        if noNl core then some (c.toUpper, core) else none
      else
        if t.any (fun x => x != '\n') then some (c.toUpper, []) else none
    else none
  | _ => none

/-- `CORRECT_RE.match` (src line 28):
`^(?:✅\s*)?(?:Correcta|Respuesta\s+correcta)\s*:\s*([A-Da-d])\s*$`,
case-insensitive; returns the captured letter as written. -/
def matchCorrect (s : List Char) : Option Char :=
  let t0 := match s with
    | '✅' :: r => r.dropWhile isSpace
    | _ => s
  let kw : Option (List Char) :=
    match ciStrip? (chars "correcta") t0 with
    | some r => some r
    | none =>
      match ciStrip? (chars "respuesta") t0 with
      | some r1 =>
        match r1 with
        | c :: cs => if isSpace c then ciStrip? (chars "correcta") (cs.dropWhile isSpace) else none
        | [] => none
      | none => none
  match kw with
  | some r =>
    match r.dropWhile isSpace with
    | ':' :: r2 =>
      match r2.dropWhile isSpace with
      | c :: r4 => if isOptLetter c && (r4.dropWhile isSpace) = [] then some c else none
      | [] => none
    | _ => none
  | none => none

/-- The `Question` dataclass (src lines 18-23). -/
structure Question where
  name : List Char
  prompt : List Char
  options : List (Char × List Char)
  correct_letter : Char
deriving DecidableEq

/-- Python `str.splitlines` restricted to the terminators `\n`, `\r\n` and
`\r` (the exotic Unicode terminators are not modelled).  A trailing
terminator produces no empty final line, and the empty string yields no
lines.  The per-line `rstrip("\n")` of src line 32 is the identity on
`splitlines` output and is not repeated here. -/
def splitAux : List Char → List Char → List (List Char)
  | [], acc => [acc.reverse]
  | '\r' :: '\n' :: cs, acc => acc.reverse :: (if cs.isEmpty then [] else splitAux cs [])
  | '\n' :: cs, acc => acc.reverse :: (if cs.isEmpty then [] else splitAux cs [])
  | '\r' :: cs, acc => acc.reverse :: (if cs.isEmpty then [] else splitAux cs [])
  | c :: cs, acc => splitAux cs (c :: acc)

/-- `text.splitlines()` (src line 32). -/
def splitLines (s : List Char) : List (List Char) :=
  match s with
  | [] => []
  | _ => splitAux s []

/-- Simplified Python `repr` of a line (quote characters are not escaped;
no claim inspects the messages that embed it). -/
def pyRepr (l : List Char) : String := "\x27" ++ String.mk l ++ "\x27"

def noStartMsg (n : Nat) (ln : List Char) : String :=
  "No encuentro inicio de pregunta en línea " ++ toString n ++ ": " ++ pyRepr ln

def noPnumMsg (n : Nat) (ln : List Char) : String :=
  "No pude determinar número de pregunta en línea " ++ toString n ++ ": " ++ pyRepr ln

def missingOptsMsg (name : List Char) (n : Nat) : String :=
  "Pregunta " ++ String.mk name ++ ": faltan opciones antes de la línea " ++ toString n

def emptyPromptMsg (name : List Char) : String :=
  "Pregunta " ++ String.mk name ++ ": enunciado vacío."

def fewOptsMsg (name : List Char) (k : Nat) : String :=
  "Pregunta " ++ String.mk name ++ ": necesito al menos 2 opciones, encontré " ++
    toString k ++ "."

def noCorrectMsg (name : List Char) : String :=
  "Pregunta " ++ String.mk name ++ ": no encontré línea \x27Correcta: X\x27."

/-- Python `repr` of the list of one-character strings `letters`
(src line 111). -/
def lettersRepr (ls : List Char) : String :=
  "[" ++ String.intercalate ", " (ls.map (fun c => "\x27" ++ String.mk [c] ++ "\x27")) ++ "]"

def badLetterMsg (name : List Char) (c : Char) (ls : List Char) : String :=
  "Pregunta " ++ String.mk name ++ ": correcta " ++ String.mk [c] ++
    " no está en opciones " ++ lettersRepr ls ++ "."

/-!
The parser walks the line list with a forward-only cursor `i`.  Each loop of
`parse_questions` is embedded as a structural recursion over the suffix
`lines.drop i` of still-unread lines, carrying the absolute index `i` for
the 1-based line numbers in error messages; a loop that stops returns the
remaining suffix together with the cursor.
-/

/-- The `skip_blanks` helper (src lines 37-40). -/
def skip_blanks : List (List Char) → Nat → List (List Char) × Nat
  | [], i => ([], i)
  | ln :: rest, i => if strip ln = [] then skip_blanks rest (i + 1) else (ln :: rest, i)

/-- Prompt-accumulation loop (src lines 58-68): skip blank lines, stop at an
option line, fail on a new question header, otherwise collect the stripped
line as a prompt fragment. -/
def promptLoop (name : List Char) :
    List (List Char) → Nat → List (List Char) →
    Except String (List (List Char) × List (List Char) × Nat)
  | [], i, acc => .ok (acc, [], i)
  | ln :: rest, i, acc =>
    let s := strip ln
    if s = [] then promptLoop name rest (i + 1) acc
    else if (matchOption s).isSome then .ok (acc, ln :: rest, i)
    else if (matchQuestionStart s).isSome then .error (missingOptsMsg name (i + 1))
    else promptLoop name rest (i + 1) (acc ++ [s])

/-- Options loop (src lines 73-84): skip blank lines and collect consecutive
option lines (letter uppercased, text stripped); stop at the first
non-blank non-option line. -/
def optionsLoop :
    List (List Char) → Nat → List (Char × List Char) →
    List (Char × List Char) × List (List Char) × Nat
  | [], i, acc => (acc, [], i)
  | ln :: rest, i, acc =>
    let s := strip ln
    if s = [] then optionsLoop rest (i + 1) acc
    else
      match matchOption s with
      | none => (acc, ln :: rest, i)
      | some p => optionsLoop rest (i + 1) (acc ++ [p])

/-- Correct-answer scan (src lines 92-105): skip blank lines, stop (without
an answer) at a new question header, capture the uppercased letter of the
first `CORRECT_RE` line, and silently skip any other line. -/
def correctLoop : List (List Char) → Nat → Option (Char × List (List Char) × Nat)
  | [], _ => none
  | ln :: rest, i =>
    let s := strip ln
    if s = [] then correctLoop rest (i + 1)
    else if (matchQuestionStart s).isSome then none
    else
      match matchCorrect s with
      | some c => some (c.toUpper, rest, i + 1)
      | none => correctLoop rest (i + 1)

/-- The cross-check of src lines 109-112: the captured letter must be among
the option letters. -/
def crossCheck (name : List Char) (letters : List Char) (c : Char) : Except String Char :=
  if c ∈ letters then .ok c else .error (badLetterMsg name c letters)

/-- One iteration of the outer `while` of `parse_questions`
(src lines 43-116): parse a single question starting at line `i` (the head
of the suffix), returning the question and the suffix after it. -/
def parseOne : List (List Char) → Nat → Except String (Question × List (List Char) × Nat)
  | [], i => .error (noStartMsg (i + 1) [])
  | ln :: rest, i =>
    match matchQuestionStart (strip ln) with
    | none => .error (noStartMsg (i + 1) ln)
    | some (pnum, g4) =>
      if pnum = [] then .error (noPnumMsg (i + 1) ln)
      else
        let name := upperChars pnum
        let firstP := strip g4
        let acc0 := if firstP = [] then [] else [firstP]
        match promptLoop name rest (i + 1) acc0 with
        | .error e => .error e
        | .ok (promptLines, rest1, i1) =>
          if promptLines = [] then .error (emptyPromptMsg name)
          else
            let (options, rest2, i2) := optionsLoop rest1 i1 []
            if options.length < 2 then .error (fewOptsMsg name options.length)
            else
              match correctLoop rest2 i2 with
              | none => .error (noCorrectMsg name)
              | some (c, rest3, i3) =>
                match crossCheck name (options.map Prod.fst) c with
                | .error e => .error e
                | .ok cL =>
                  .ok ({ name := name,
                         prompt := strip (List.intercalate [' '] promptLines),
                         options := options, correct_letter := cL }, rest3, i3)

/-- The outer `while` of `parse_questions`, driven by fuel.  Each iteration
consumes at least the header line, so a fuel equal to the number of lines
(as supplied by `parse_questions`) can never run out before the suffix is
exhausted; the fuel-exhaustion branch is unreachable. -/
def parseLoop : Nat → List (List Char) → Nat → List Question → Except String (List Question)
  | _, [], _, acc => .ok acc
  | 0, _ :: _, _, _ => .error ""
  | fuel + 1, ln :: rest, i, acc =>
    match parseOne (ln :: rest) i with
    | .error e => .error e
    | .ok (q, rest2, i2) =>
      let (rest3, i3) := skip_blanks rest2 i2
      parseLoop fuel rest3 i3 (acc ++ [q])

/-- `parse_questions` on a pre-split line list (src lines 31-118 with the
initial `skip_blanks` of line 42). -/
def parseLines (lines : List (List Char)) : Except String (List Question) :=
  let (rest0, i0) := skip_blanks lines 0
  parseLoop lines.length rest0 i0 []

/-- `parse_questions` (src line 31). -/
def parse_questions (text : List Char) : Except String (List Question) :=
  parseLines (splitLines text)

/-- The option lines of one emitted block (src lines 125-127): each option's
text prefixed by `=` when its letter equals the correct letter, else `~`. -/
def optionLinesOf (q : Question) : List (List Char) :=
  q.options.map (fun p => (if p.1 = q.correct_letter then '=' else '~') :: p.2)

/-- All lines emitted for one question (src lines 122-129), including the
trailing blank separator line. -/
def giftLinesOf (q : Question) : List (List Char) :=
  [chars "::" ++ q.name ++ chars "::", q.prompt, ['\x7b']] ++
    optionLinesOf q ++ [['\x7d'], []]

/-- `to_gift` (src lines 121-132): join all lines with newlines, strip
trailing whitespace, and append exactly one final newline. -/
def to_gift (questions : List Question) : List Char :=
  rstrip (List.intercalate ['\n'] ((questions.map giftLinesOf).flatten)) ++ ['\n']

/-- `true` iff an emitted option line carries the `=` (correct) marker. -/
def eqMark (l : List Char) : Bool :=
  match l with
  | c :: _ => c == '='
  | [] => false

end Convert

deriving instance DecidableEq for Except

namespace Convert

theorem dropWhile_idem (p : Char → Bool) (l : List Char) :
    (l.dropWhile p).dropWhile p = l.dropWhile p := by
  induction l with
  | nil => rfl
  | cons c t ih => by_cases h : p c <;> simp [List.dropWhile_cons, h, ih]

theorem rstrip_rstrip (l : List Char) : rstrip (rstrip l) = rstrip l := by
  simp [rstrip, dropWhile_idem]

theorem rstrip_append_nl (l : List Char) : rstrip (l ++ ['\n']) = rstrip l := by
  have h : isSpace '\n' = true := by decide
  simp [rstrip, List.dropWhile_cons, h]

theorem skip_blanks_all_blank :
    ∀ (ls : List (List Char)) (i : Nat), (∀ ln ∈ ls, strip ln = []) →
      skip_blanks ls i = ([], i + ls.length)
  | [], i, _ => rfl
  | ln :: rest, i, h => by
    have h0 : strip ln = [] := h ln (by simp)
    have ih := skip_blanks_all_blank rest (i + 1) (fun x hx => h x (by simp [hx]))
    simp [skip_blanks, h0, ih]
    omega

/-- C5: for the single question `P1` / "What is 2+2?" / options A "3", B "4",
C "5" / correct letter B, the emitter output is exactly the lines `::P1::`,
the prompt, `{`, `~3`, `=4`, `~5`, `}`, followed by exactly one terminating
line break. -/
theorem emission_exactness :
    to_gift [⟨chars "P1", chars "What is 2+2?",
              [('A', chars "3"), ('B', chars "4"), ('C', chars "5")], 'B'⟩] =
      chars "::P1::\nWhat is 2+2?\n\x7b\n~3\n=4\n~5\n\x7d\n" := by decide

/-- C9: for every sequence of questions the emitted string ends with exactly
one line break and no other trailing whitespace: it equals its own
whitespace-right-stripped form followed by a single newline. -/
theorem trailing_line_break (qs : List Question) :
    to_gift qs = rstrip (to_gift qs) ++ ['\n'] := by
  unfold to_gift
  rw [rstrip_append_nl, rstrip_rstrip]

/-- C8: the marker lines `Correcta: B`, `Respuesta correcta: b` and
`✅ Correcta: B` are all accepted by the correct-answer pattern, and the
answer scan yields the uppercased letter `B` for each. -/
theorem answer_marker_variants :
    matchCorrect (chars "Correcta: B") = some 'B' ∧
    matchCorrect (chars "Respuesta correcta: b") = some 'b' ∧
    matchCorrect (chars "✅ Correcta: B") = some 'B' ∧
    correctLoop [chars "Correcta: B"] 0 = some ('B', [], 1) ∧
    correctLoop [chars "Respuesta correcta: b"] 0 = some ('B', [], 1) ∧
    correctLoop [chars "✅ Correcta: B"] 0 = some ('B', [], 1) := by decide

/-- C1, counterexample: for a `Question` whose `correct_letter` is among the
option letters but whose letters are duplicated, the emitted block has two
option lines prefixed `=`, not exactly one — so the claim fails when the
assumed invariant is only membership of the correct letter. -/
theorem one_eq_mark_counterexample :
    (⟨chars "P1", chars "p", [('B', chars "x"), ('B', chars "y")], 'B'⟩ : Question).correct_letter ∈
      (⟨chars "P1", chars "p", [('B', chars "x"), ('B', chars "y")], 'B'⟩ : Question).options.map Prod.fst ∧
    (optionLinesOf ⟨chars "P1", chars "p", [('B', chars "x"), ('B', chars "y")], 'B'⟩).countP eqMark = 2 ∧
    ¬ (optionLinesOf ⟨chars "P1", chars "p", [('B', chars "x"), ('B', chars "y")], 'B'⟩).countP eqMark = 1 := by
  decide

/-- C1, amended: for every `Question` whose `correct_letter` is among the
option letters and whose option letters are pairwise distinct, the emitted
block has exactly one option line prefixed `=`, and an option's line is
`=`-prefixed exactly when its letter equals `correct_letter` and
`~`-prefixed exactly when it does not. -/
theorem one_eq_mark (q : Question)
    (hmem : q.correct_letter ∈ q.options.map Prod.fst)
    (hnd : (q.options.map Prod.fst).Nodup) :
    (optionLinesOf q).countP eqMark = 1 ∧
    ∀ (k : Nat) (p : Char × List Char), q.options[k]? = some p →
      (((optionLinesOf q)[k]? = some ('=' :: p.2)) ↔ p.1 = q.correct_letter) ∧
      (((optionLinesOf q)[k]? = some ('~' :: p.2)) ↔ p.1 ≠ q.correct_letter) := by
  constructor
  · have h1 : (optionLinesOf q).countP eqMark
        = q.options.countP (fun p => p.1 == q.correct_letter) := by
      unfold optionLinesOf
      rw [List.countP_map]
      congr 1
      funext p
      by_cases h : p.1 = q.correct_letter <;> simp [eqMark, Function.comp, h]
    have h2 : q.options.countP (fun p => p.1 == q.correct_letter)
        = (q.options.map Prod.fst).count q.correct_letter := by
      rw [List.count, List.countP_map]
      rfl
    rw [h1, h2, List.count_eq_one_of_mem hnd hmem]
  · intro k p hk
    have hline : (optionLinesOf q)[k]?
        = some ((if p.1 = q.correct_letter then '=' else '~') :: p.2) := by
      unfold optionLinesOf
      rw [List.getElem?_map, hk]
      rfl
    by_cases h : p.1 = q.correct_letter <;> simp [hline, h]

/-- Witness for `one_eq_mark` at a concrete two-option question. -/
theorem one_eq_mark_witness :
    (optionLinesOf ⟨chars "P1", chars "p", [('A', chars "x"), ('B', chars "y")], 'B'⟩).countP eqMark = 1 ∧
    ((optionLinesOf ⟨chars "P1", chars "p", [('A', chars "x"), ('B', chars "y")], 'B'⟩)[0]? =
        some ('~' :: chars "x") ↔ 'A' ≠ 'B') :=
  ⟨(one_eq_mark ⟨chars "P1", chars "p", [('A', chars "x"), ('B', chars "y")], 'B'⟩
      (by decide) (by decide)).1,
   ((one_eq_mark ⟨chars "P1", chars "p", [('A', chars "x"), ('B', chars "y")], 'B'⟩
      (by decide) (by decide)).2 0 ('A', chars "x") (by decide)).2⟩

/-- C10: parsing the empty input, or an input of blank lines only, succeeds
with no questions, and the emitter maps the empty sequence to the string
consisting of exactly one line break. -/
theorem empty_input_ok :
    parse_questions [] = .ok [] ∧
    (∀ text, (∀ ln ∈ splitLines text, strip ln = []) → parse_questions text = .ok []) ∧
    to_gift [] = ['\n'] := by
  refine ⟨by decide, ?_, by decide⟩
  intro text h
  unfold parse_questions parseLines
  rw [skip_blanks_all_blank _ 0 h]
  simp [parseLoop]

/-- Witness for `empty_input_ok` at a concrete whitespace-only input. -/
theorem empty_input_ok_witness :
    parse_questions (chars "  \n\n\t") = .ok [] :=
  empty_input_ok.2.1 (chars "  \n\n\t") (by decide)

end Convert


namespace Convert

theorem matchQuestionStart_nil : matchQuestionStart [] = none := rfl

/-- A line that matches the question-start pattern cannot match the option
pattern: the two regexes are disjoint. -/
theorem matchOption_eq_none_of_start (s : List Char)
    (h : (matchQuestionStart s).isSome) : matchOption s = none := by
  match s with
  | [] => rfl
  | [c] => rfl
  | c :: c2 :: t =>
    by_cases hc : c2 = ')' ∧ isOptLetter c
    · exfalso
      obtain ⟨hc2, _⟩ := hc
      subst hc2
      have hac : altColon (c :: ')' :: t) = none := by
        simp [altColon]
      have hap : altPDot (c :: ')' :: t) = none := by
        by_cases hp : c.toLower = 'p'
        · simp [altPDot, hp, List.takeWhile_cons]
        · simp [altPDot, hp]
      rw [matchQuestionStart, hac, hap] at h
      simp at h
    · simp [matchOption, hc]

theorem strip_ne_nil_of_start (ln : List Char)
    (h : (matchQuestionStart (strip ln)).isSome) : strip ln ≠ [] := by
  intro e
  rw [e, matchQuestionStart_nil] at h
  simp at h

/-- C7 -/
theorem dangling_header_error :
    (∀ (name ln : List Char) (rest : List (List Char)) (i : Nat) (acc : List (List Char)),
      (matchQuestionStart (strip ln)).isSome →
      promptLoop name (ln :: rest) i acc = .error (missingOptsMsg name (i + 1))) ∧
    parse_questions (chars "P1. q\nP2. w\nA) a\nB) b\nCorrecta: A") =
      .error "Pregunta P1: faltan opciones antes de la línea 2" := by
  constructor
  · intro name ln rest i acc h
    have hs := strip_ne_nil_of_start ln h
    have ho := matchOption_eq_none_of_start (strip ln) h
    simp [promptLoop, hs, ho, h]
  · decide

/-- C7 witness -/
theorem dangling_header_error_witness :
    promptLoop (chars "P1") [chars "P2. w"] 1 [chars "q"] =
      .error (missingOptsMsg (chars "P1") 2) :=
  dangling_header_error.1 (chars "P1") (chars "P2. w") [] 1 [chars "q"] (by decide)

end Convert

namespace Convert

/-- C6 -/
theorem min_options_error :
    (∀ (ln : List Char) (rest : List (List Char)) (i : Nat)
       (pnum g4 : List Char) (pl : List (List Char)) (rest1 : List (List Char)) (i1 : Nat)
       (opts : List (Char × List Char)) (rest2 : List (List Char)) (i2 : Nat),
      matchQuestionStart (strip ln) = some (pnum, g4) →
      pnum ≠ [] →
      promptLoop (upperChars pnum) rest (i + 1)
        (if strip g4 = [] then [] else [strip g4]) = .ok (pl, rest1, i1) →
      pl ≠ [] →
      optionsLoop rest1 i1 [] = (opts, rest2, i2) →
      opts.length < 2 →
      parseOne (ln :: rest) i = .error (fewOptsMsg (upperChars pnum) opts.length)) ∧
    parse_questions (chars "P1. q") =
      .error "Pregunta P1: necesito al menos 2 opciones, encontré 0." ∧
    parse_questions (chars "P1. q\nA) a") =
      .error "Pregunta P1: necesito al menos 2 opciones, encontré 1." := by
  refine ⟨?_, by decide, by decide⟩
  intro ln rest i pnum g4 pl rest1 i1 opts rest2 i2 hm hp hpl hne hopt hlen
  simp [parseOne, hm, hp, hpl, hne, hopt, hlen]

/-- C6 witness -/
theorem min_options_error_witness :
    parseOne [chars "P1. q", chars "A) a"] 0 =
      .error (fewOptsMsg (upperChars (chars "P1")) 1) :=
  min_options_error.1 (chars "P1. q") [chars "A) a"] 0 (chars "P1") (chars "q")
    [chars "q"] [chars "A) a"] 1 [('A', chars "a")] [] 2
    (by decide) (by decide) (by decide) (by decide) (by decide) (by decide)

end Convert

namespace Convert

/-- C4 -/
theorem answer_scan_behavior :
    (∀ (ln : List Char) (rest : List (List Char)) (i : Nat),
      strip ln ≠ [] → matchQuestionStart (strip ln) = none → matchCorrect (strip ln) = none →
      correctLoop (ln :: rest) i = correctLoop rest (i + 1)) ∧
    (∀ i : Nat, correctLoop [] i = none) ∧
    (∀ (ln : List Char) (rest : List (List Char)) (i : Nat),
      (matchQuestionStart (strip ln)).isSome → correctLoop (ln :: rest) i = none) ∧
    (∀ (ln : List Char) (rest : List (List Char)) (i : Nat)
       (pnum g4 : List Char) (pl : List (List Char)) (rest1 : List (List Char)) (i1 : Nat)
       (opts : List (Char × List Char)) (rest2 : List (List Char)) (i2 : Nat),
      matchQuestionStart (strip ln) = some (pnum, g4) →
      pnum ≠ [] →
      promptLoop (upperChars pnum) rest (i + 1)
        (if strip g4 = [] then [] else [strip g4]) = .ok (pl, rest1, i1) →
      pl ≠ [] →
      optionsLoop rest1 i1 [] = (opts, rest2, i2) →
      ¬ opts.length < 2 →
      correctLoop rest2 i2 = none →
      parseOne (ln :: rest) i = .error (noCorrectMsg (upperChars pnum))) ∧
    parse_questions (chars "P1. q\nA) a\nB) b\nzzz") =
      .error "Pregunta P1: no encontré línea \x27Correcta: X\x27." ∧
    parse_questions (chars "P1. q\nA) a\nB) b\nP2. w") =
      .error "Pregunta P1: no encontré línea \x27Correcta: X\x27." := by
  refine ⟨?_, fun i => rfl, ?_, ?_, by decide, by decide⟩
  · intro ln rest i hs hq hc
    simp [correctLoop, hs, hq, hc]
  · intro ln rest i h
    have hs := strip_ne_nil_of_start ln h
    simp [correctLoop, hs, h]
  · intro ln rest i pnum g4 pl rest1 i1 opts rest2 i2 hm hp hpl hne hopt hlen hcl
    simp [parseOne, hm, hp, hpl, hne, hopt, hlen, hcl]

/-- C4 witness -/
theorem answer_scan_behavior_witness :
    correctLoop [chars "zzz", chars "Correcta: A"] 3 = correctLoop [chars "Correcta: A"] 4 ∧
    parseOne [chars "P1. q", chars "A) a", chars "B) b", chars "zzz"] 0 =
      .error (noCorrectMsg (upperChars (chars "P1"))) :=
  ⟨answer_scan_behavior.1 (chars "zzz") [chars "Correcta: A"] 3
      (by decide) (by decide) (by decide),
   answer_scan_behavior.2.2.2.1 (chars "P1. q") [chars "A) a", chars "B) b", chars "zzz"] 0
      (chars "P1") (chars "q") [chars "q"] [chars "A) a", chars "B) b", chars "zzz"] 1
      [('A', chars "a"), ('B', chars "b")] [chars "zzz"] 3
      (by decide) (by decide) (by decide) (by decide) (by decide) (by decide) (by decide)⟩

end Convert

namespace Convert

/-- Every question produced by `parseOne` satisfies the letter invariant. -/
theorem parseOne_letter_mem :
    ∀ (ls : List (List Char)) (i : Nat) (q : Question)
      (r : List (List Char)) (j : Nat),
      parseOne ls i = .ok (q, r, j) →
      q.correct_letter ∈ q.options.map Prod.fst := by
  intro ls i q r j hok
  match ls with
  | [] => simp [parseOne] at hok
  | ln :: rest =>
    rw [parseOne] at hok
    split at hok
    · simp at hok
    · split at hok
      · simp at hok
      · simp only [] at hok
        split at hok
        · simp at hok
        · split at hok
          · simp at hok
          · split at hok
            · simp at hok
            · split at hok
              · simp at hok
              · rename_i c rest3 i3 hcl
                generalize hcc : crossCheck _ _ _ = cc at hok
                match cc with
                | .error e => simp at hok
                | .ok cL =>
                  simp only [Except.ok.injEq, Prod.mk.injEq] at hok
                  rw [crossCheck] at hcc
                  split at hcc
                  · rename_i hmem
                    obtain ⟨hq, hr, hj⟩ := hok
                    cases hcc
                    subst hq
                    simpa using hmem
                  · simp at hcc
end Convert

namespace Convert

/-- `parseLoop` only ever appends to its accumulator. -/
theorem parseLoop_acc :
    ∀ (fuel : Nat) (ls : List (List Char)) (i : Nat)
      (acc qs : List Question),
      parseLoop fuel ls i acc = .ok qs → ∃ t, qs = acc ++ t := by
  intro fuel
  induction fuel with
  | zero =>
    intro ls i acc qs h
    match ls with
    | [] => exact ⟨[], by simpa [parseLoop] using h.symm⟩
    | _ :: _ => simp [parseLoop] at h
  | succ n ih =>
    intro ls i acc qs h
    match ls with
    | [] => exact ⟨[], by simpa [parseLoop] using h.symm⟩
    | ln :: rest =>
      rw [parseLoop] at h
      split at h
      · simp at h
      · rename_i q rest2 i2 hpo
        obtain ⟨t, ht⟩ := ih _ _ _ _ h
        exact ⟨q :: t, by simpa using ht⟩

/-- Letter invariant for `parseLoop`: every question in an `ok` result that
is not already in the accumulator was produced by `parseOne`. -/
theorem parseLoop_letter_mem :
    ∀ (fuel : Nat) (ls : List (List Char)) (i : Nat)
      (acc qs : List Question),
      parseLoop fuel ls i acc = .ok qs →
      (∀ q ∈ acc, q.correct_letter ∈ q.options.map Prod.fst) →
      ∀ q ∈ qs, q.correct_letter ∈ q.options.map Prod.fst := by
  intro fuel
  induction fuel with
  | zero =>
    intro ls i acc qs h hacc
    match ls with
    | [] =>
      simp only [parseLoop, Except.ok.injEq] at h
      subst h
      exact hacc
    | _ :: _ => simp [parseLoop] at h
  | succ n ih =>
    intro ls i acc qs h hacc
    match ls with
    | [] =>
      simp only [parseLoop, Except.ok.injEq] at h
      subst h
      exact hacc
    | ln :: rest =>
      rw [parseLoop] at h
      split at h
      · simp at h
      · rename_i q rest2 i2 hpo
        refine ih _ _ _ _ h ?_
        intro q' hq'
        rcases List.mem_append.mp hq' with hl | hr
        · exact hacc q' hl
        · rw [List.mem_singleton.mp hr]
          exact parseOne_letter_mem _ _ _ _ _ hpo

/-- C2 -/
theorem letter_invariant :
    (∀ (text : List Char) (qs : List Question),
      parse_questions text = .ok qs →
      ∀ q ∈ qs, q.correct_letter ∈ q.options.map Prod.fst) ∧
    (∀ (name letters : List Char) (c : Char), c ∉ letters →
      crossCheck name letters c = .error (badLetterMsg name c letters)) ∧
    parse_questions (chars "P1. q\nA) a\nB) b\nCorrecta: D") =
      .error "Pregunta P1: correcta D no está en opciones [\x27A\x27, \x27B\x27]." := by
  refine ⟨?_, ?_, by decide⟩
  · intro text qs h
    unfold parse_questions parseLines at h
    exact parseLoop_letter_mem _ _ _ _ _ h (by simp)
  · intro name letters c hc
    simp [crossCheck, hc]

/-- C2 witness -/
theorem letter_invariant_witness :
    parse_questions (chars "P1. q\nA) a\nB) b\nCorrecta: B") =
      .ok [⟨chars "P1", chars "q", [('A', chars "a"), ('B', chars "b")], 'B'⟩] ∧
    (⟨chars "P1", chars "q", [('A', chars "a"), ('B', chars "b")], 'B'⟩ : Question).correct_letter ∈
      (⟨chars "P1", chars "q", [('A', chars "a"), ('B', chars "b")], 'B'⟩ : Question).options.map Prod.fst :=
  ⟨by decide,
   letter_invariant.1 (chars "P1. q\nA) a\nB) b\nCorrecta: B")
     [⟨chars "P1", chars "q", [('A', chars "a"), ('B', chars "b")], 'B'⟩]
     (by decide) _ (by decide)⟩

end Convert

namespace Convert

/-- The name of a question produced by `parseOne` is the uppercased label
captured by the question-start pattern. -/
theorem parseOne_name :
    ∀ (ln : List Char) (rest : List (List Char)) (i : Nat)
      (pnum g4 : List Char) (q : Question) (r : List (List Char)) (j : Nat),
      matchQuestionStart (strip ln) = some (pnum, g4) →
      parseOne (ln :: rest) i = .ok (q, r, j) →
      q.name = upperChars pnum := by
  intro ln rest i pnum g4 q r j hm hok
  rw [parseOne] at hok
  split at hok
  · simp at hok
  · rename_i pnum2 g42 heq
    rw [hm] at heq
    obtain ⟨hp2, hg2⟩ : pnum2 = pnum ∧ g42 = g4 := by
      have := Option.some.inj heq.symm
      exact ⟨congrArg Prod.fst this, congrArg Prod.snd this⟩
    subst hp2
    subst hg2
    split at hok
    · simp at hok
    · simp only [] at hok
      split at hok
      · simp at hok
      · split at hok
        · simp at hok
        · split at hok
          · simp at hok
          · split at hok
            · simp at hok
            · split at hok
              · simp at hok
              · simp only [Except.ok.injEq, Prod.mk.injEq] at hok
                obtain ⟨hq, -, -⟩ := hok
                subst hq
                rfl

/-- C3 -/
theorem header_equivalence (rest : List (List Char)) :
    parseLines (chars "::P7::" :: rest) = parseLines (chars "P7." :: rest) ∧
    ∀ qs, parseLines (chars "::P7::" :: rest) = .ok qs →
      qs.head?.map Question.name = some (chars "P7") := by
  have h1 : matchQuestionStart (strip (chars "::P7::")) = some (chars "P7", []) := by decide
  have h2 : matchQuestionStart (strip (chars "P7.")) = some (chars "P7", []) := by decide
  have hs1 : strip (chars "::P7::") ≠ [] := by decide
  have hs2 : strip (chars "P7.") ≠ [] := by decide
  have hsb1 : skip_blanks (chars "::P7::" :: rest) 0 = (chars "::P7::" :: rest, 0) := by
    rw [skip_blanks, if_neg hs1]
  have hsb2 : skip_blanks (chars "P7." :: rest) 0 = (chars "P7." :: rest, 0) := by
    rw [skip_blanks, if_neg hs2]
  have hne : (chars "P7" : List Char) ≠ [] := by decide
  have hpo : parseOne (chars "::P7::" :: rest) 0 = parseOne (chars "P7." :: rest) 0 := by
    rw [parseOne, parseOne, h1, h2]
    simp [hne]
  constructor
  · unfold parseLines
    rw [hsb1, hsb2]
    simp only [List.length_cons]
    rw [parseLoop, parseLoop, hpo]
  · intro qs hok
    unfold parseLines at hok
    rw [hsb1] at hok
    simp only [List.length_cons] at hok
    rw [parseLoop] at hok
    split at hok
    · simp at hok
    · rename_i q rest2 i2 hpone
      obtain ⟨t, ht⟩ := parseLoop_acc _ _ _ _ _ hok
      subst ht
      have hn := parseOne_name _ _ _ _ _ _ _ _ h1 hpone
      simp [hn]
      decide

end Convert

namespace Convert

/-- C3 witness -/
theorem header_equivalence_witness :
    parseLines (chars "::P7::" :: [chars "q", chars "A) a", chars "B) b", chars "Correcta: A"]) =
      parseLines (chars "P7." :: [chars "q", chars "A) a", chars "B) b", chars "Correcta: A"]) ∧
    ([⟨chars "P7", chars "q", [('A', chars "a"), ('B', chars "b")], 'A'⟩] : List Question).head?.map
        Question.name = some (chars "P7") :=
  ⟨(header_equivalence [chars "q", chars "A) a", chars "B) b", chars "Correcta: A"]).1,
   (header_equivalence [chars "q", chars "A) a", chars "B) b", chars "Correcta: A"]).2
     [⟨chars "P7", chars "q", [('A', chars "a"), ('B', chars "b")], 'A'⟩] (by decide)⟩

end Convert
